import Mathlib

/-!
Shallow embedding of the query and resolution layer of the wokhei CLI
(src/query.rs, src/item.rs, src/error.rs), together with proofs of the
specification's testable properties.  Events, tags and projected records
are modelled as plain Lean structures; the relay (event store) is an
external collaborator and is modelled as a function from the request
cursor (or filter) to the batch it returns.  Machine integers (u64
timestamps, usize offsets) are modelled as Nat; Rust saturating
arithmetic coincides with truncated Nat arithmetic.
-/

set_option maxRecDepth 100000

namespace Wokhei

/-- Model of nostr_sdk PublicKey (external library type): a validated
author key whose canonical rendering (to_hex) is a 64 character
lowercase hex string.  The hex field stores that canonical form. -/
structure PublicKey where
  hex : String
deriving DecidableEq, Repr

/-- Model of PublicKey::to_hex: the canonical lowercase hex rendering. -/
def PublicKey.to_hex (p : PublicKey) : String := p.hex

/-- The 22 characters accepted as hex digits when parsing a key. -/
def hexDigitChars : List Char :=
  ['A', 'B', 'C', 'D', 'E', 'F',
   'a', 'b', 'c', 'd', 'e', 'f',
   '9', '8', '7', '6', '5', '4', '3', '2', '1', '0']

/-- The 16 characters that may appear in a canonical (lowercase) hex key. -/
def lowerHexDigitChars : List Char :=
  ['f', 'e', 'd', 'c', 'b', 'a', '9', '8', '7', '6', '5', '4', '3', '2', '1', '0']

/-- Lowercasing of a single hex digit character. -/
def lowerHexChar (c : Char) : Char :=
  if c = 'A' then 'a' else if c = 'B' then 'b' else if c = 'C' then 'c'
  else if c = 'D' then 'd' else if c = 'E' then 'e' else if c = 'F' then 'f' else c

/-- Model of nostr_sdk PublicKey::parse (external library function), hex
path: accept exactly 64 hex digits (either case) and normalize to the
canonical lowercase form; reject anything else. -/
def PublicKey.parse (s : String) : Option PublicKey :=
  if s.data.length = 64 ∧ s.data.all (fun c => hexDigitChars.contains c) then
    some ⟨⟨s.data.map lowerHexChar⟩⟩
  else none

/-- A hex string is canonical when it has length 64 and uses only
lowercase hex digits (the form produced by to_hex). -/
def IsCanonicalHex (s : String) : Prop :=
  s.data.length = 64 ∧ ∀ c ∈ s.data, c ∈ lowerHexDigitChars

/-- Model of a signed nostr event as read by the query layer
(src/query.rs).  The id field holds the hex form of the event identity
(EventId::to_hex), pubkey the author key, created_at the u64 timestamp
in seconds, tags the raw array-of-array-of-string tag list. -/
structure Event where
  id : String
  kind : Nat
  pubkey : PublicKey
  created_at : Nat
  tags : List (List String)
  content : String
deriving DecidableEq, Repr

/-- Embedding of header_d_tag (src/query.rs lines 130-139): the value of
the first tag whose key is d, if any. -/
def header_d_tag (ev : Event) : Option String :=
  ev.tags.findSome? fun t =>
    if t.head? = some "d" then t.get? 1 else none

/-- Projected record produced by event_to_json (src/query.rs lines
14-62): the raw event fields plus the convenience fields extracted from
known tag keys.  Fields absent from the JSON object are none. -/
structure EventJson where
  event_id : String
  kind : Nat
  pubkey : String
  created_at : Nat
  tags : List (List String)
  content : String
  name : Option String
  aliases : Option (List String)
  title : Option String
  description : Option String
  coordinate : Option String
deriving DecidableEq, Repr

/-- One step of the tag-extraction loop of event_to_json: a tag with at
least two elements updates the convenience field selected by its key. -/
def eventJsonStep (kindNum : Nat) (pubkeyHex : String) (obj : EventJson)
    (parts : List String) : EventJson :=
  match parts with
  | key :: v1 :: rest =>
    if key = "names" then
      { obj with
        name := some v1
        aliases := if rest.length > 0 then some rest else obj.aliases }
    else if key = "title" then { obj with title := some v1 }
    else if key = "description" then { obj with description := some v1 }
    else if key = "d" then
      { obj with
        coordinate := some (toString kindNum ++ ":" ++ pubkeyHex ++ ":" ++ v1) }
    else obj
  | _ => obj

/-- Embedding of event_to_json (src/query.rs lines 14-62). -/
def event_to_json (ev : Event) : EventJson :=
  ev.tags.foldl (eventJsonStep ev.kind ev.pubkey.to_hex)
    { event_id := ev.id
      kind := ev.kind
      pubkey := ev.pubkey.to_hex
      created_at := ev.created_at
      tags := ev.tags
      content := ev.content
      name := none
      aliases := none
      title := none
      description := none
      coordinate := none }

/-- The comparator of sort_event_json_desc (src/query.rs lines 64-73):
created_at descending first, then event_id ascending;
b_created.cmp(a_created).then_with(a_id.cmp(b_id)). -/
def event_json_cmp (a b : EventJson) : Ordering :=
  (compare b.created_at a.created_at).then (compare a.event_id b.event_id)

/-- Embedding of sort_event_json_desc (src/query.rs lines 64-73): a
stable sort by event_json_cmp. -/
def sort_event_json_desc (events : List EventJson) : List EventJson :=
  events.mergeSort fun a b => event_json_cmp a b != Ordering.gt

/-- Embedding of paginate (src/query.rs lines 84-91): the window
values[offset .. min(offset+limit, len)], empty when the offset is out
of range or the limit is zero. -/
def paginate {α : Type} (values : List α) (offset limit : Nat) : List α :=
  if offset ≥ values.length ∨ limit = 0 then []
  else ((values.take (min (offset + limit) values.length)).drop offset)

theorem paginate_eq_slice {α : Type} (values : List α) (offset limit : Nat) :
    paginate values offset limit
      = (values.take (min (offset + limit) values.length)).drop offset := by
  unfold paginate
  split
  · next h =>
    rcases h with h | h
    · refine (List.drop_eq_nil_of_le ?_).symm
      calc (values.take (min (offset + limit) values.length)).length
          ≤ values.length := by
            rw [List.length_take]; exact min_le_right _ _
        _ ≤ offset := h
    · subst h
      refine (List.drop_eq_nil_of_le ?_).symm
      rw [List.length_take]
      calc min (offset + 0) values.length ⊓ values.length
          ≤ min (offset + 0) values.length := min_le_left _ _
        _ ≤ offset + 0 := min_le_left _ _
        _ = offset := rfl
  · rfl

theorem paginate_empty_of_out_of_range {α : Type} (values : List α)
    (offset limit : Nat) (h : offset ≥ values.length ∨ limit = 0) :
    paginate values offset limit = [] := by
  unfold paginate
  simp [h]

/-- Characterization of a non-empty page: paginate returns a non-empty
window exactly when the offset is in range and the limit is positive. -/
theorem paginate_ne_nil_iff {α : Type} (values : List α) (offset limit : Nat) :
    paginate values offset limit ≠ [] ↔ offset < values.length ∧ 0 < limit := by
  constructor
  · intro h
    by_contra hc
    rw [not_and_or, not_lt, Nat.not_lt, Nat.le_zero] at hc
    exact h (paginate_empty_of_out_of_range _ _ _ hc)
  · rintro ⟨h1, h2⟩
    unfold paginate
    rw [if_neg]
    · intro hnil
      have hlen := congrArg List.length hnil
      rw [List.length_drop, List.length_take] at hlen
      simp only [List.length_nil] at hlen
      have hmin : min (offset + limit) values.length ⊓ values.length
          = min (offset + limit) values.length := by
        exact min_eq_left (min_le_right _ _)
      rw [hmin] at hlen
      have : offset < min (offset + limit) values.length := by
        exact lt_min (by omega) h1
      omega
    · rw [not_or]
      exact ⟨by omega, by omega⟩

/-! Order-theoretic facts about the sort comparator. -/

theorem event_json_cmp_eq_compareLex :
    event_json_cmp
      = compareLex (flip (compareOn EventJson.created_at)) (compareOn EventJson.event_id) :=
  rfl

instance : Batteries.TransCmp event_json_cmp :=
  event_json_cmp_eq_compareLex ▸
    inferInstanceAs (Batteries.TransCmp
      (compareLex (flip (compareOn EventJson.created_at)) (compareOn EventJson.event_id)))

theorem string_coreLt_iff (a b : String) :
    @LT.lt String String.instLT a b ↔ a < b := by
  rw [String.lt_iff_toList_lt]
  exact List.lt_iff_lex_lt a.data b.data

theorem string_compare_eq_gt_iff (a b : String) :
    compare a b = Ordering.gt ↔ b < a := by
  have h1 := @Batteries.LTCmp.cmp_iff_gt String compare a b String.instLT String.instLTOrd
  rw [string_coreLt_iff] at h1
  exact h1

theorem bne_gt_iff (o : Ordering) : (o != Ordering.gt) = true ↔ o ≠ Ordering.gt := by
  cases o <;> decide

/-- Unfolding of the comparator: a compares no-greater-than b exactly
when a has the later timestamp, or the timestamps tie and the event id
of a is lexicographically no larger. -/
theorem event_json_le_iff (a b : EventJson) :
    (event_json_cmp a b != Ordering.gt) = true ↔
      b.created_at < a.created_at
      ∨ (a.created_at = b.created_at
          ∧ (a.event_id = b.event_id ∨ a.event_id < b.event_id)) := by
  rw [bne_gt_iff]
  unfold event_json_cmp
  rw [Ne, Ordering.then_eq_gt, not_or, not_and]
  rw [Nat.compare_eq_gt, Nat.compare_eq_eq, string_compare_eq_gt_iff]
  constructor
  · rintro ⟨h1, h2⟩
    rcases Nat.lt_or_ge b.created_at a.created_at with h | h
    · exact Or.inl h
    · have hba : b.created_at = a.created_at := Nat.le_antisymm (Nat.not_lt.mp h1) h
      refine Or.inr ⟨hba.symm, ?_⟩
      have := h2 hba
      rcases lt_trichotomy a.event_id b.event_id with h' | h' | h'
      · exact Or.inr h'
      · exact Or.inl h'
      · exact absurd h' this
  · rintro (h | ⟨h1, h2⟩)
    · exact ⟨fun h' => absurd h (Nat.lt_asymm h'), fun h' => absurd h' (by omega)⟩
    · refine ⟨by omega, fun _ => ?_⟩
      rcases h2 with h2 | h2
      · rw [h2]; exact lt_irrefl _
      · exact lt_asymm h2

theorem sort_le_trans (a b c : EventJson)
    (h1 : (event_json_cmp a b != Ordering.gt) = true)
    (h2 : (event_json_cmp b c != Ordering.gt) = true) :
    (event_json_cmp a c != Ordering.gt) = true := by
  rw [bne_gt_iff] at h1 h2 ⊢
  exact Batteries.TransCmp.le_trans h1 h2

theorem sort_le_total (a b : EventJson) :
    ((event_json_cmp a b != Ordering.gt) || (event_json_cmp b a != Ordering.gt)) = true := by
  rcases h : event_json_cmp a b with _ | _ | _
  · rfl
  · rfl
  · have hba : event_json_cmp b a = Ordering.lt := Batteries.OrientedCmp.cmp_eq_gt.mp h
    rw [hba]; rfl

/-- C3: the sort used for headers, items and export is a deterministic
total order: the output is a permutation of the input, it is ordered by
created_at descending with ties broken by event_id ascending
(lexicographically on the canonical hex string), and sorting an already
sorted list changes nothing, so repeated sorting is stable. -/
theorem sort_event_json_desc_total_order (records : List EventJson) :
    (sort_event_json_desc records).Perm records
    ∧ (sort_event_json_desc records).Pairwise (fun a b =>
        b.created_at < a.created_at
        ∨ (a.created_at = b.created_at
            ∧ (a.event_id = b.event_id ∨ a.event_id < b.event_id)))
    ∧ sort_event_json_desc (sort_event_json_desc records) = sort_event_json_desc records := by
  refine ⟨List.mergeSort_perm records _, ?_, ?_⟩
  · exact (List.sorted_mergeSort sort_le_trans sort_le_total records).imp
      (fun h => (event_json_le_iff _ _).mp h)
  · exact List.mergeSort_of_sorted (List.sorted_mergeSort sort_le_trans sort_le_total records)

/-- Sample projected record used as concrete input by witnesses. -/
def sampleJson (id : String) (ca : Nat) : EventJson :=
  ⟨id, 9998, "aa", ca, [], "", none, none, none, none, none⟩

/-- C2: pagination is pure windowing over the materialized sorted list:
the page equals the slice sorted[offset .. min(offset+limit, total)],
and an out-of-range offset or a zero limit yields an empty page rather
than an error. -/
theorem paginate_is_pure_windowing (records : List EventJson) (offset limit : Nat) :
    paginate (sort_event_json_desc records) offset limit
      = ((sort_event_json_desc records).take
          (min (offset + limit) (sort_event_json_desc records).length)).drop offset
    ∧ (offset ≥ (sort_event_json_desc records).length ∨ limit = 0 →
        paginate (sort_event_json_desc records) offset limit = []) :=
  ⟨paginate_eq_slice _ _ _, paginate_empty_of_out_of_range _ _ _⟩

theorem paginate_is_pure_windowing_witness :
    paginate (sort_event_json_desc [sampleJson "b" 10, sampleJson "a" 10]) 5 0 = [] :=
  (paginate_is_pure_windowing [sampleJson "b" 10, sampleJson "a" 10] 5 0).2
    (Or.inr rfl)

/-! Exhaustive enumerator (fetch_all_events, src/query.rs lines 175-224).
The store is modelled as a function from the ordinal of the fetch (how
many fetches were already issued) and the until cursor of the issued
filter to the batch of events the relay returns; the base filter is
fixed and folded into that function, and keying on the ordinal lets the
model represent every sequence of batches, including a store that
answers the same cursor differently on different fetches.  The unbounded
Rust loop is modelled with explicit fuel: a none result means the loop
has not finished within the given number of fetches. -/

def FETCH_PAGE_SIZE : Nat := 500

/-- Largest u64 value; the running minimum in the Rust loop starts at
u64::MAX. -/
def U64_MAX : Nat := 2 ^ 64 - 1

/-- The minimum created_at seen in a batch, folded from u64::MAX exactly
as in the loop body (src/query.rs lines 203-205). -/
def batch_oldest (batch : List Event) : Nat :=
  batch.foldl (fun acc ev => min acc ev.created_at) U64_MAX

/-- The per-batch deduplication of the loop body (src/query.rs lines
204-210): push each event whose id was newly inserted into the seen set.
Returns the extended seen set and the extended accumulator. -/
def dedup_batch : List Event → List String → List Event → List String × List Event
  | [], seen, acc => (seen, acc)
  | ev :: rest, seen, acc =>
    if seen.contains ev.id then dedup_batch rest seen acc
    else dedup_batch rest (ev.id :: seen) (acc ++ [ev])

/-- One-loop-per-fuel embedding of the fetch loop of fetch_all_events
(src/query.rs lines 184-221).  step counts the fetches already issued,
so the batch of this iteration is store step untilSecs. -/
def fetch_loop (store : Nat → Option Nat → List Event) :
    Nat → Nat → List String → List Event → Option Nat → Option (List Event)
  | _, 0, _, _, _ => none
  | step, fuel + 1, seen, acc, untilSecs =>
    if (store step untilSecs).isEmpty then some acc
    else if (store step untilSecs).length < FETCH_PAGE_SIZE
        ∨ batch_oldest (store step untilSecs) = 0 then
      some (dedup_batch (store step untilSecs) seen acc).2
    else if untilSecs = some (batch_oldest (store step untilSecs) - 1) then
      some (dedup_batch (store step untilSecs) seen acc).2
    else
      fetch_loop store (step + 1) fuel
        (dedup_batch (store step untilSecs) seen acc).1
        (dedup_batch (store step untilSecs) seen acc).2
        (some (batch_oldest (store step untilSecs) - 1))

/-- Embedding of fetch_all_events: run the loop from an empty
accumulator, an empty seen set and no upper time bound. -/
def fetch_all_events (store : Nat → Option Nat → List Event) (fuel : Nat) :
    Option (List Event) :=
  fetch_loop store 0 fuel [] [] none

/-- The enumeration terminates when some fuel suffices. -/
def fetch_terminates (store : Nat → Option Nat → List Event) : Prop :=
  ∃ fuel out, fetch_all_events store fuel = some out

/-- The store honors the until bound it is given: every event of a
bounded batch has created_at at most the bound, on every fetch. -/
def store_honors_until (store : Nat → Option Nat → List Event) : Prop :=
  ∀ (i u : Nat), ∀ ev ∈ store i (some u), ev.created_at ≤ u

theorem dedup_batch_invariant :
    ∀ (batch : List Event) (seen : List String) (acc : List Event),
      (acc.map Event.id).Nodup →
      (∀ a ∈ acc, a.id ∈ seen) →
      ((dedup_batch batch seen acc).2.map Event.id).Nodup
      ∧ (∀ a ∈ (dedup_batch batch seen acc).2, a.id ∈ (dedup_batch batch seen acc).1) := by
  intro batch
  induction batch with
  | nil => intro seen acc h1 h2; exact ⟨h1, h2⟩
  | cons ev rest ih =>
    intro seen acc h1 h2
    by_cases hc : ev.id ∈ seen
    · have heq : dedup_batch (ev :: rest) seen acc = dedup_batch rest seen acc := by
        simp [dedup_batch, hc]
      rw [heq]
      exact ih seen acc h1 h2
    · have heq : dedup_batch (ev :: rest) seen acc
          = dedup_batch rest (ev.id :: seen) (acc ++ [ev]) := by
        simp [dedup_batch, hc]
      rw [heq]
      have hnotin : ev.id ∉ acc.map Event.id := by
        intro hmem
        obtain ⟨a, ha, hid⟩ := List.mem_map.mp hmem
        exact hc (hid ▸ h2 a ha)
      refine ih _ _ ?_ ?_
      · rw [List.map_append]
        simp only [List.map_cons, List.map_nil]
        rw [List.nodup_append]
        refine ⟨h1, List.nodup_singleton _, ?_⟩
        intro a ha hb
        simp only [List.mem_singleton] at hb
        subst hb
        exact hnotin ha
      · intro a ha
        rcases List.mem_append.mp ha with ha | ha
        · exact List.mem_cons_of_mem _ (h2 a ha)
        · simp only [List.mem_singleton] at ha
          subst ha
          exact List.mem_cons_self _ _

theorem fetch_loop_nodup (store : Nat → Option Nat → List Event) :
    ∀ (fuel step : Nat) (seen : List String) (acc : List Event) (u : Option Nat)
      (out : List Event),
      (acc.map Event.id).Nodup →
      (∀ a ∈ acc, a.id ∈ seen) →
      fetch_loop store step fuel seen acc u = some out →
      (out.map Event.id).Nodup := by
  intro fuel
  induction fuel with
  | zero =>
    intro step seen acc u out _ _ h
    exact absurd h (by simp [fetch_loop])
  | succ n ih =>
    intro step seen acc u out h1 h2 h
    have inv := dedup_batch_invariant (store step u) seen acc h1 h2
    simp only [fetch_loop] at h
    split at h
    · injection h with h; subst h; exact h1
    · split at h
      · injection h with h; subst h; exact inv.1
      · split at h
        · injection h with h; subst h; exact inv.1
        · exact ih _ _ _ _ _ inv.1 inv.2 h

/-- C1: for every base filter, every store behaviour — a sequence of
batches that may overlap, repeat events or straddle page boundaries,
even answering the same cursor differently on different fetches — and
any fuel for which the enumeration completes, the output of
fetch_all_events contains each event identity at most once. -/
theorem fetch_all_events_no_duplicates (store : Nat → Option Nat → List Event)
    (fuel : Nat) (out : List Event)
    (h : fetch_all_events store fuel = some out) :
    (out.map Event.id).Nodup :=
  fetch_loop_nodup store fuel 0 [] [] none out (by simp) (by simp) h

theorem fetch_all_events_no_duplicates_witness :
    ((([] : List Event)).map Event.id).Nodup :=
  fetch_all_events_no_duplicates (fun _ _ => []) 1 [] rfl

theorem foldl_min_le_init (l : List Event) :
    ∀ m : Nat, l.foldl (fun acc ev => min acc ev.created_at) m ≤ m := by
  induction l with
  | nil => intro m; exact Nat.le_refl m
  | cons hd tl ih =>
    intro m
    calc (hd :: tl).foldl (fun acc ev => min acc ev.created_at) m
        = tl.foldl (fun acc ev => min acc ev.created_at) (min m hd.created_at) := rfl
      _ ≤ min m hd.created_at := ih _
      _ ≤ m := Nat.min_le_left _ _

theorem foldl_min_le_of_mem (l : List Event) :
    ∀ (m : Nat) (ev : Event), ev ∈ l →
      l.foldl (fun acc e => min acc e.created_at) m ≤ ev.created_at := by
  induction l with
  | nil => intro m ev h; exact absurd h (List.not_mem_nil ev)
  | cons hd tl ih =>
    intro m ev h
    rcases List.mem_cons.mp h with h | h
    · subst h
      calc (ev :: tl).foldl (fun acc e => min acc e.created_at) m
          = tl.foldl (fun acc e => min acc e.created_at) (min m ev.created_at) := rfl
        _ ≤ min m ev.created_at := foldl_min_le_init tl _
        _ ≤ ev.created_at := Nat.min_le_right _ _
    · exact ih _ ev h

theorem batch_oldest_le_of_mem {batch : List Event} {ev : Event} (h : ev ∈ batch) :
    batch_oldest batch ≤ ev.created_at :=
  foldl_min_le_of_mem batch U64_MAX ev h

theorem fetch_loop_terminates_at (store : Nat → Option Nat → List Event)
    (hst : store_honors_until store) :
    ∀ (u step : Nat) (seen : List String) (acc : List Event),
      ∃ n out, fetch_loop store step n seen acc (some u) = some out := by
  intro u
  induction u using Nat.strong_induction_on with
  | _ u ih =>
    intro step seen acc
    by_cases hempty : (store step (some u)).isEmpty = true
    · refine ⟨1, acc, ?_⟩
      simp only [fetch_loop]
      rw [if_pos hempty]
    · by_cases hstop : (store step (some u)).length < FETCH_PAGE_SIZE
          ∨ batch_oldest (store step (some u)) = 0
      · refine ⟨1, (dedup_batch (store step (some u)) seen acc).2, ?_⟩
        simp only [fetch_loop]
        rw [if_neg hempty, if_pos hstop]
      · by_cases heq : (some u : Option Nat)
            = some (batch_oldest (store step (some u)) - 1)
        · refine ⟨1, (dedup_batch (store step (some u)) seen acc).2, ?_⟩
          simp only [fetch_loop]
          rw [if_neg hempty, if_neg hstop, if_pos heq]
        · have hne : store step (some u) ≠ [] := by
            intro hcon
            exact hempty (by simp [hcon])
          obtain ⟨ev, hev⟩ := List.exists_mem_of_ne_nil _ hne
          have h1 : batch_oldest (store step (some u)) ≤ ev.created_at :=
            batch_oldest_le_of_mem hev
          have h2 : ev.created_at ≤ u := hst step u ev hev
          have h3 : batch_oldest (store step (some u)) ≠ 0 := fun hc => hstop (Or.inr hc)
          have hlt : batch_oldest (store step (some u)) - 1 < u := by omega
          obtain ⟨n, out, hn⟩ := ih _ hlt (step + 1)
            (dedup_batch (store step (some u)) seen acc).1
            (dedup_batch (store step (some u)) seen acc).2
          refine ⟨n + 1, out, ?_⟩
          simp only [fetch_loop]
          rw [if_neg hempty, if_neg hstop, if_neg heq]
          exact hn

/-- C4 (amended): the loop reissues each full page with upper time bound
min_created_at - 1 and stops on a short batch, on reaching the timestamp
floor 0, or when the cursor fails to CHANGE (it only compares the next
cursor with the current one).  Against a store that honors the until
bound — every event of a bounded batch timestamped at most the bound,
so the cursor strictly decreases — the enumeration terminates after
finitely many fetches.  (For a fully adversarial non-monotonic store it
need not terminate; see the counterexample.) -/
theorem fetch_all_events_terminates (store : Nat → Option Nat → List Event)
    (hst : store_honors_until store) :
    ∃ fuel out, fetch_all_events store fuel = some out := by
  unfold fetch_all_events
  by_cases hempty : (store 0 none).isEmpty = true
  · refine ⟨1, [], ?_⟩
    simp only [fetch_loop]
    rw [if_pos hempty]
  · by_cases hstop : (store 0 none).length < FETCH_PAGE_SIZE
      ∨ batch_oldest (store 0 none) = 0
    · refine ⟨1, (dedup_batch (store 0 none) [] []).2, ?_⟩
      simp only [fetch_loop]
      rw [if_neg hempty, if_pos hstop]
    · obtain ⟨n, out, hn⟩ := fetch_loop_terminates_at store hst
        (batch_oldest (store 0 none) - 1) 1
        (dedup_batch (store 0 none) [] []).1
        (dedup_batch (store 0 none) [] []).2
      refine ⟨n + 1, out, ?_⟩
      simp only [fetch_loop]
      rw [if_neg hempty, if_neg hstop, if_neg (by simp)]
      exact hn

theorem fetch_all_events_terminates_witness :
    ∃ fuel out, fetch_all_events (fun _ _ => ([] : List Event)) fuel = some out :=
  fetch_all_events_terminates _ (fun _ _ ev h => absurd h (List.not_mem_nil ev))

/-- First adversarial event: a page of 500 copies of it reports minimum
timestamp 100. -/
def cexEventA : Event := ⟨"aa", 9998, ⟨"cafe"⟩, 100, [], ""⟩

/-- Second adversarial event: a page of 500 copies of it reports minimum
timestamp 5. -/
def cexEventB : Event := ⟨"bb", 9998, ⟨"cafe"⟩, 5, [], ""⟩

/-- An adversarial non-monotonic store: the cursor oscillates between 99
and 4 forever, each step changing the cursor (so the equality stop check
never fires) without ever decreasing it monotonically. -/
def cex_store : Nat → Option Nat → List Event :=
  fun _ u => if u = some 99 then List.replicate 500 cexEventB
    else List.replicate 500 cexEventA

/-- Seen set after the first two adversarial batches. -/
def cexSeen : List String := ["bb", "aa"]

/-- Accumulator after the first two adversarial batches. -/
def cexAcc : List Event := [cexEventA, cexEventB]

theorem fetch_loop_advance (store : Nat → Option Nat → List Event) (step n : Nat)
    (seen : List String) (acc : List Event) (u : Option Nat)
    (hne : store step u ≠ [])
    (hlen : ¬ (store step u).length < FETCH_PAGE_SIZE)
    (hold : batch_oldest (store step u) ≠ 0)
    (hcur : u ≠ some (batch_oldest (store step u) - 1)) :
    fetch_loop store step (n + 1) seen acc u
      = fetch_loop store (step + 1) n (dedup_batch (store step u) seen acc).1
          (dedup_batch (store step u) seen acc).2
          (some (batch_oldest (store step u) - 1)) := by
  simp only [fetch_loop]
  rw [if_neg (by simpa using hne), if_neg (by rw [not_or]; exact ⟨hlen, hold⟩),
    if_neg hcur]

theorem dedup_batch_replicate_seen :
    ∀ (n : Nat) (e : Event) (seen : List String) (acc : List Event),
      seen.contains e.id = true →
      dedup_batch (List.replicate n e) seen acc = (seen, acc) := by
  intro n
  induction n with
  | zero => intro e seen acc _; rfl
  | succ k ih =>
    intro e seen acc h
    rw [List.replicate_succ]
    simp only [dedup_batch]
    rw [if_pos h]
    exact ih e seen acc h

theorem dedup_batch_replicate_new (n : Nat) (e : Event)
    (seen : List String) (acc : List Event) (h : seen.contains e.id = false) :
    dedup_batch (List.replicate (n + 1) e) seen acc = (e.id :: seen, acc ++ [e]) := by
  rw [List.replicate_succ]
  simp only [dedup_batch]
  rw [if_neg (by simpa using h)]
  exact dedup_batch_replicate_seen n e _ _ (by simp [List.contains_cons])

theorem foldl_min_replicate (e : Event) :
    ∀ (n m : Nat),
      (List.replicate (n + 1) e).foldl (fun acc ev => min acc ev.created_at) m
        = min m e.created_at := by
  intro n
  induction n with
  | zero => intro m; rfl
  | succ k ih =>
    intro m
    rw [List.replicate_succ, List.foldl_cons, ih, min_assoc, min_self]

theorem batch_oldest_replicate (n : Nat) (e : Event) :
    batch_oldest (List.replicate (n + 1) e) = min U64_MAX e.created_at :=
  foldl_min_replicate e n U64_MAX

theorem cex_step_init (i n : Nat) :
    fetch_loop cex_store i (n + 1) [] [] none
      = fetch_loop cex_store (i + 1) n ["aa"] [cexEventA] (some 99) := by
  have hs : cex_store i none = List.replicate (499 + 1) cexEventA := rfl
  have hd : dedup_batch (cex_store i none) [] [] = (["aa"], [cexEventA]) := by
    rw [hs, dedup_batch_replicate_new 499 cexEventA [] [] rfl]
    rfl
  have ho : batch_oldest (cex_store i none) = 100 := by
    rw [hs, batch_oldest_replicate]
    decide
  have hne : cex_store i none ≠ [] := by rw [hs]; simp
  have hlen : ¬ (cex_store i none).length < FETCH_PAGE_SIZE := by
    rw [hs, List.length_replicate]
    decide
  have hold : batch_oldest (cex_store i none) ≠ 0 := by rw [ho]; decide
  have hcur : (none : Option Nat) ≠ some (batch_oldest (cex_store i none) - 1) := by
    simp
  rw [fetch_loop_advance cex_store i n [] [] none hne hlen hold hcur, hd, ho]

theorem cex_step_aa (i n : Nat) :
    fetch_loop cex_store i (n + 1) ["aa"] [cexEventA] (some 99)
      = fetch_loop cex_store (i + 1) n cexSeen cexAcc (some 4) := by
  have hs : cex_store i (some 99) = List.replicate (499 + 1) cexEventB := rfl
  have hd : dedup_batch (cex_store i (some 99)) ["aa"] [cexEventA]
      = (cexSeen, cexAcc) := by
    rw [hs, dedup_batch_replicate_new 499 cexEventB ["aa"] [cexEventA] rfl]
    rfl
  have ho : batch_oldest (cex_store i (some 99)) = 5 := by
    rw [hs, batch_oldest_replicate]
    decide
  have hne : cex_store i (some 99) ≠ [] := by rw [hs]; simp
  have hlen : ¬ (cex_store i (some 99)).length < FETCH_PAGE_SIZE := by
    rw [hs, List.length_replicate]
    decide
  have hold : batch_oldest (cex_store i (some 99)) ≠ 0 := by rw [ho]; decide
  have hcur : (some 99 : Option Nat)
      ≠ some (batch_oldest (cex_store i (some 99)) - 1) := by
    rw [ho]; decide
  rw [fetch_loop_advance cex_store i n ["aa"] [cexEventA] (some 99) hne hlen hold hcur,
    hd, ho]

theorem cex_step_99 (i n : Nat) :
    fetch_loop cex_store i (n + 1) cexSeen cexAcc (some 99)
      = fetch_loop cex_store (i + 1) n cexSeen cexAcc (some 4) := by
  have hs : cex_store i (some 99) = List.replicate 500 cexEventB := rfl
  have hd : dedup_batch (cex_store i (some 99)) cexSeen cexAcc = (cexSeen, cexAcc) := by
    rw [hs]
    exact dedup_batch_replicate_seen 500 cexEventB cexSeen cexAcc rfl
  have ho : batch_oldest (cex_store i (some 99)) = 5 := by
    rw [show cex_store i (some 99) = List.replicate (499 + 1) cexEventB from rfl,
      batch_oldest_replicate]
    decide
  have hne : cex_store i (some 99) ≠ [] := by rw [hs]; simp
  have hlen : ¬ (cex_store i (some 99)).length < FETCH_PAGE_SIZE := by
    rw [hs, List.length_replicate]
    decide
  have hold : batch_oldest (cex_store i (some 99)) ≠ 0 := by rw [ho]; decide
  have hcur : (some 99 : Option Nat)
      ≠ some (batch_oldest (cex_store i (some 99)) - 1) := by
    rw [ho]; decide
  rw [fetch_loop_advance cex_store i n cexSeen cexAcc (some 99) hne hlen hold hcur,
    hd, ho]

theorem cex_step_4 (i n : Nat) :
    fetch_loop cex_store i (n + 1) cexSeen cexAcc (some 4)
      = fetch_loop cex_store (i + 1) n cexSeen cexAcc (some 99) := by
  have hs : cex_store i (some 4) = List.replicate 500 cexEventA := rfl
  have hd : dedup_batch (cex_store i (some 4)) cexSeen cexAcc = (cexSeen, cexAcc) := by
    rw [hs]
    exact dedup_batch_replicate_seen 500 cexEventA cexSeen cexAcc rfl
  have ho : batch_oldest (cex_store i (some 4)) = 100 := by
    rw [show cex_store i (some 4) = List.replicate (499 + 1) cexEventA from rfl,
      batch_oldest_replicate]
    decide
  have hne : cex_store i (some 4) ≠ [] := by rw [hs]; simp
  have hlen : ¬ (cex_store i (some 4)).length < FETCH_PAGE_SIZE := by
    rw [hs, List.length_replicate]
    decide
  have hold : batch_oldest (cex_store i (some 4)) ≠ 0 := by rw [ho]; decide
  have hcur : (some 4 : Option Nat)
      ≠ some (batch_oldest (cex_store i (some 4)) - 1) := by
    rw [ho]; decide
  rw [fetch_loop_advance cex_store i n cexSeen cexAcc (some 4) hne hlen hold hcur,
    hd, ho]

theorem cex_loop_none (n : Nat) :
    (∀ i, fetch_loop cex_store i n cexSeen cexAcc (some 99) = none)
    ∧ (∀ i, fetch_loop cex_store i n cexSeen cexAcc (some 4) = none) := by
  induction n with
  | zero => exact ⟨fun _ => rfl, fun _ => rfl⟩
  | succ k ih =>
    exact ⟨fun i => by rw [cex_step_99]; exact ih.2 (i + 1),
      fun i => by rw [cex_step_4]; exact ih.1 (i + 1)⟩

theorem cex_fetch_all_none : ∀ fuel : Nat, fetch_all_events cex_store fuel = none := by
  intro fuel
  match fuel with
  | 0 => rfl
  | 1 =>
    show fetch_loop cex_store 0 1 [] [] none = none
    rw [cex_step_init]
    rfl
  | n + 2 =>
    show fetch_loop cex_store 0 (n + 2) [] [] none = none
    rw [cex_step_init, cex_step_aa]
    exact (cex_loop_none n).2 2

/-- C4 counterexample: against the adversarial non-monotonic store the
enumeration loop never terminates — the code only stops when the next
cursor EQUALS the current one, not when it fails to decrease, so a store
whose batch minima oscillate drives the loop forever. -/
theorem fetch_all_events_not_terminating : ¬ fetch_terminates cex_store := by
  rintro ⟨fuel, out, h⟩
  rw [cex_fetch_all_none fuel] at h
  exact Option.noConfusion h

/-! Error taxonomy (src/error.rs) and the listing paths of src/query.rs. -/

/-- Embedding of the AppError variants reached by the query and
resolution paths (src/error.rs), plus InvalidHeaderKind for the raw
CommandError with code INVALID_ARGS raised by resolve_header_by_id when
the referenced event is neither header kind (src/item.rs lines 110-114). -/
inductive AppError where
  | RelayUnreachable (url : String)
  | HeaderNotFound (event_id : String)
  | HeaderMissingDTag
  | InvalidEventId (id : String)
  | NoResults
  | InvalidCoordinate (input : String)
  | InvalidHeaderKind
deriving DecidableEq, Repr

/-- Embedding of AppError::code (src/error.rs lines 47-63) restricted to
the variants above; InvalidHeaderKind carries the INVALID_ARGS code of
the raw CommandError it models. -/
def AppError.code : AppError → String
  | .RelayUnreachable _ => "RELAY_UNREACHABLE"
  | .HeaderNotFound _ => "HEADER_NOT_FOUND"
  | .HeaderMissingDTag => "HEADER_MISSING_D_TAG"
  | .InvalidEventId _ => "INVALID_EVENT_ID"
  | .NoResults => "NO_RESULTS"
  | .InvalidCoordinate _ => "INVALID_COORDINATE"
  | .InvalidHeaderKind => "INVALID_ARGS"

/-- The needle is a leading segment of the haystack. -/
def subAt : List Char → List Char → Bool
  | [], _ => true
  | _ :: _, [] => false
  | c :: cs, d :: ds => c == d && subAt cs ds

/-- The needle occurs contiguously somewhere in the haystack. -/
def hasSub (needle : List Char) : List Char → Bool
  | [] => needle.isEmpty
  | d :: ds => subAt needle (d :: ds) || hasSub needle ds

/-- Model of Rust str::contains used by the client-side name filter. -/
def string_contains_sub (hay needle : String) : Bool :=
  hasSub needle.data hay.data

/-- The materialized header list of list_headers (src/query.rs lines
258-270): project every fetched event, apply the client-side lowercase
name substring filter, and sort by the standard descending order. -/
def filtered_headers (events : List Event) (nameFilter : Option String) :
    List EventJson :=
  let headers := events.map event_to_json
  let filtered :=
    match nameFilter with
    | some nf =>
      headers.filter fun h =>
        match h.name with
        | some n => string_contains_sub n.toLower nf.toLower
        | none => false
    | none => headers
  sort_event_json_desc filtered

/-- The successful output shape of list_headers (src/query.rs lines
350-357) together with the two navigation offsets surfaced as next
actions: prev_offset when offset > 0 (lines 299-313), recovery_offset
when the page is empty but the set is not (lines 329-343). -/
structure HeadersPage where
  total : Nat
  count : Nat
  offset : Nat
  limit : Nat
  has_more : Bool
  headers : List EventJson
  prev_offset : Option Nat
  recovery_offset : Option Nat
deriving DecidableEq, Repr

/-- Embedding of the result shaping of list_headers (src/query.rs lines
254-358) after a successful fetch: NoResults when the filtered set is
empty and the offset is zero, otherwise the page and its navigation
metadata.  The step of both navigation offsets is limit.max(1). -/
def list_headers_core (events : List Event) (nameFilter : Option String)
    (offset limit : Nat) : Except AppError HeadersPage :=
  if (filtered_headers events nameFilter).length = 0 ∧ offset = 0 then
    .error .NoResults
  else
    .ok
      { total := (filtered_headers events nameFilter).length
        count := (paginate (filtered_headers events nameFilter) offset limit).length
        offset := offset
        limit := limit
        has_more := decide (0 < limit)
          && decide (offset + limit < (filtered_headers events nameFilter).length)
        headers := paginate (filtered_headers events nameFilter) offset limit
        prev_offset := if 0 < offset then some (offset - max limit 1) else none
        recovery_offset :=
          if 0 < (filtered_headers events nameFilter).length
              ∧ (paginate (filtered_headers events nameFilter) offset limit).length = 0 then
            some ((((filtered_headers events nameFilter).length - 1) / max limit 1)
              * max limit 1)
          else none }

/-- Embedding of list_headers including the fetch outcome: a transport
failure (none) maps to RelayUnreachable (src/query.rs lines 190-197),
a successful fetch is shaped by list_headers_core. -/
def list_headers_fetch (relay : String) (fetchResult : Option (List Event))
    (nameFilter : Option String) (offset limit : Nat) :
    Except AppError HeadersPage :=
  match fetchResult with
  | none => .error (.RelayUnreachable relay)
  | some events => list_headers_core events nameFilter offset limit

/-- Embedding of the result shaping of list_items (src/query.rs lines
395-421) after the item fetch: NoResults when no item matched, else the
count, the header reference and the items. -/
def list_items_core (items : List EventJson) (header_ref : String) :
    Except AppError (Nat × String × List EventJson) :=
  if items.isEmpty then .error .NoResults
  else .ok (items.length, header_ref, items)

/-- C5 (amended): list_headers computes has_more = limit > 0 &&
offset+limit < total, which holds exactly when the next page is
non-empty; when offset > 0 the previous-page pointer is
max(0, offset − max(limit,1)); when the set is non-empty but the
requested page is empty the recovery offset is
((total−1)/max(limit,1))·max(limit,1).  For limit ≥ 1 the two offsets
agree with the claimed formulas; at limit = 0 the code uses step 1 where
the claim divides or subtracts by 0. -/
theorem list_headers_navigation (events : List Event) (nf : Option String)
    (offset limit : Nat) (page : HeadersPage)
    (h : list_headers_core events nf offset limit = .ok page) :
    (page.has_more = true
      ↔ 0 < limit ∧ offset + limit < (filtered_headers events nf).length)
    ∧ (page.has_more = true
      ↔ paginate (filtered_headers events nf) (offset + limit) limit ≠ [])
    ∧ (0 < offset → page.prev_offset = some (offset - max limit 1))
    ∧ (0 < (filtered_headers events nf).length
        ∧ paginate (filtered_headers events nf) offset limit = [] →
        page.recovery_offset
          = some ((((filtered_headers events nf).length - 1) / max limit 1)
              * max limit 1)) := by
  simp only [list_headers_core] at h
  split at h
  · exact absurd h (by simp)
  · injection h with h
    subst h
    refine ⟨?_, ?_, ?_, ?_⟩
    · simp
    · rw [paginate_ne_nil_iff]
      simp only [Bool.and_eq_true, decide_eq_true_eq]
      constructor
      · rintro ⟨h1, h2⟩; exact ⟨h2, h1⟩
      · rintro ⟨h1, h2⟩; exact ⟨h2, h1⟩
    · intro hoff
      simp only [HeadersPage.prev_offset]
      rw [if_pos hoff]
    · rintro ⟨h1, h2⟩
      simp only [HeadersPage.recovery_offset]
      rw [if_pos ⟨h1, by rw [h2]; rfl⟩]

theorem list_headers_navigation_witness :
    (HeadersPage.has_more ⟨0, 0, 1, 2, false, [], some 0, none⟩ = true
      ↔ 0 < 2 ∧ 1 + 2 < (filtered_headers [] none).length)
    ∧ (HeadersPage.has_more ⟨0, 0, 1, 2, false, [], some 0, none⟩ = true
      ↔ paginate (filtered_headers [] none) (1 + 2) 2 ≠ [])
    ∧ (0 < 1 → HeadersPage.prev_offset ⟨0, 0, 1, 2, false, [], some 0, none⟩
        = some (1 - max 2 1))
    ∧ (0 < (filtered_headers [] none).length
        ∧ paginate (filtered_headers [] none) 1 2 = [] →
        HeadersPage.recovery_offset ⟨0, 0, 1, 2, false, [], some 0, none⟩
          = some ((((filtered_headers [] none).length - 1) / max 2 1) * max 2 1)) :=
  list_headers_navigation [] none 1 2 ⟨0, 0, 1, 2, false, [], some 0, none⟩
    (by simp [list_headers_core, filtered_headers, sort_event_json_desc, paginate])

/-- C5 counterexample: at limit = 0 and offset = 5 the code computes the
previous-page offset with step max(limit,1) = 1, yielding 4, while the
claimed formula max(0, offset − limit) yields 5. -/
theorem list_headers_prev_offset_cex :
    list_headers_core [] none 5 0 = .ok ⟨0, 0, 5, 0, false, [], some 4, none⟩
    ∧ ¬ (4 : Nat) = max 0 (5 - 0) := by
  refine ⟨?_, by decide⟩
  simp [list_headers_core, filtered_headers, sort_event_json_desc, paginate]

/-- C9 (amended): with the store reachable, an empty result set yields
the distinct NoResults condition from list_headers when the offset is
zero and a successful empty page when it is positive, and always yields
NoResults from list_items; any error of the post-fetch shaping is
NoResults, never connectivity; RelayUnreachable arises from a failed
fetch and its code is distinct from the empty-result code. -/
theorem empty_vs_unreachable (relay : String) (events : List Event)
    (nf : Option String) (offset limit : Nat)
    (items : List EventJson) (ref : String) :
    (filtered_headers events nf = [] → offset = 0 →
      list_headers_fetch relay (some events) nf offset limit = .error .NoResults)
    ∧ (filtered_headers events nf = [] → 0 < offset →
      ∃ page, list_headers_fetch relay (some events) nf offset limit = .ok page)
    ∧ (∀ e, list_headers_fetch relay (some events) nf offset limit = .error e →
      e = .NoResults)
    ∧ (items = [] → list_items_core items ref = .error .NoResults)
    ∧ (∀ e, list_items_core items ref = .error e → e = .NoResults)
    ∧ list_headers_fetch relay none nf offset limit = .error (.RelayUnreachable relay)
    ∧ AppError.NoResults.code ≠ (AppError.RelayUnreachable relay).code := by
  refine ⟨?_, ?_, ?_, ?_, ?_, rfl, by simp [AppError.code]⟩
  · intro h1 h2
    show list_headers_core events nf offset limit = .error .NoResults
    simp only [list_headers_core]
    rw [if_pos ⟨by rw [h1]; rfl, h2⟩]
  · intro h1 h2
    show ∃ page, list_headers_core events nf offset limit = .ok page
    simp only [list_headers_core]
    rw [if_neg (by omega)]
    exact ⟨_, rfl⟩
  · intro e he
    replace he : list_headers_core events nf offset limit = .error e := he
    simp only [list_headers_core] at he
    split at he
    · injection he with he
      exact he.symm
    · exact absurd he (by simp)
  · intro h
    subst h
    rfl
  · intro e he
    simp only [list_items_core] at he
    split at he
    · injection he with he
      exact he.symm
    · exact absurd he (by simp)

theorem empty_vs_unreachable_witness :
    list_headers_fetch "ws://relay" (some []) none 0 10 = .error AppError.NoResults :=
  (empty_vs_unreachable "ws://relay" [] none 0 10 [] "abc").1
    (by simp [filtered_headers, sort_event_json_desc]) rfl

/-- C9 counterexample: a filter matching zero events combined with a
positive offset returns a successful empty page, not the NoResults
condition, so the claimed "for every (offset, limit)" fails. -/
theorem list_headers_empty_offset_cex :
    list_headers_fetch "ws://relay" (some []) none 1 10
      = .ok ⟨0, 0, 1, 10, false, [], some 0, none⟩
    ∧ list_headers_fetch "ws://relay" (some []) none 1 10
      ≠ .error AppError.NoResults := by
  have h : list_headers_fetch "ws://relay" (some []) none 1 10
      = .ok ⟨0, 0, 1, 10, false, [], some 0, none⟩ := by
    show list_headers_core [] none 1 10 = _
    simp [list_headers_core, filtered_headers, sort_event_json_desc, paginate]
  exact ⟨h, by rw [h]; simp⟩

/-! Reference resolution (src/item.rs): coordinate parsing and the
identity path of resolve_header_ref. -/

/-- Split a character list at the first occurrence of c, if any. -/
def splitOnce (c : Char) : List Char → Option (List Char × List Char)
  | [] => none
  | x :: xs =>
    if x = c then some ([], xs)
    else
      match splitOnce c xs with
      | some (l, r) => some (x :: l, r)
      | none => none

/-- Model of Rust str::splitn(3, ':'): at most three segments, the third
keeping any further colons. -/
def splitn3 (s : String) : List String :=
  match splitOnce ':' s.data with
  | none => [s]
  | some (a, rest) =>
    match splitOnce ':' rest with
    | none => [⟨a⟩, ⟨rest⟩]
    | some (b, r2) => [⟨a⟩, ⟨b⟩, ⟨r2⟩]

/-- The decimal value of a digit character, if it is one. -/
def charDigit (c : Char) : Option Nat :=
  if '0' ≤ c ∧ c ≤ '9' then some (c.toNat - '0'.toNat) else none

/-- Accumulate the decimal value of a character list; none on the first
non-digit. -/
def digitsVal : List Char → Nat → Option Nat
  | [], acc => some acc
  | c :: cs, acc =>
    match charDigit c with
    | some d => digitsVal cs (acc * 10 + d)
    | none => none

/-- Model of Rust str::parse::<u16>: an optional leading plus sign, then
at least one decimal digit, value below 2^16 (Rust rejects overflow). -/
def parseU16 (s : String) : Option Nat :=
  match (match s.data with
    | '+' :: rest => rest
    | l => l) with
  | [] => none
  | t =>
    match digitsVal t 0 with
    | some n => if n < 65536 then some n else none
    | none => none

/-- Embedding of parse_coordinate_str (src/item.rs lines 10-25). -/
def parse_coordinate_str (input : String) :
    Except AppError (Nat × PublicKey × String) :=
  match splitn3 input with
  | [k, a, d] =>
    match parseU16 k with
    | none => .error (.InvalidCoordinate input)
    | some kind_num =>
      match PublicKey.parse a with
      | none => .error (.InvalidCoordinate input)
      | some pk => .ok (kind_num, pk, d)
  | _ => .error (.InvalidCoordinate input)

/-- Model of nostr Coordinate rendering (external library): the
canonical kind:author_hex:identifier string. -/
def coordinate_to_string (kind : Nat) (pk : PublicKey) (d : String) : String :=
  toString kind ++ ":" ++ pk.to_hex ++ ":" ++ d

/-- Embedding of the coordinate path of resolve_header_ref (src/item.rs
lines 45-53): parse, require the mutable header kind, and return the
normalized reference. -/
def resolve_coordinate_ref (coord_str : String) : Except AppError String :=
  match parse_coordinate_str coord_str with
  | .error e => .error e
  | .ok (kind_num, pk, d) =>
    if kind_num ≠ 39998 then .error (.InvalidCoordinate coord_str)
    else .ok ("39998:" ++ pk.to_hex ++ ":" ++ d)

/-- Embedding of the body of resolve_header_by_id after the fetch found
the event (src/item.rs lines 95-115): a mutable header resolves to its
coordinate and must carry its d tag, an immutable header resolves to its
identity, any other kind is rejected. -/
def resolve_header_event (ev : Event) : Except AppError String :=
  if ev.kind = 39998 then
    match header_d_tag ev with
    | none => .error .HeaderMissingDTag
    | some d => .ok ("39998:" ++ ev.pubkey.to_hex ++ ":" ++ d)
  else if ev.kind = 9998 then .ok ev.id
  else .error .InvalidHeaderKind

theorem mem_lowerHex_mem_hex {c : Char} (h : c ∈ lowerHexDigitChars) :
    c ∈ hexDigitChars := by
  fin_cases h <;> decide

theorem lowerHexChar_id_of_mem {c : Char} (h : c ∈ lowerHexDigitChars) :
    lowerHexChar c = c := by
  fin_cases h <;> decide

theorem lowerHexChar_mem_of_mem {c : Char} (h : c ∈ hexDigitChars) :
    lowerHexChar c ∈ lowerHexDigitChars := by
  fin_cases h <;> decide

theorem colon_not_mem_of_lowerHex {c : Char} (h : c ∈ lowerHexDigitChars) :
    c ≠ ':' := by
  fin_cases h <;> decide

theorem PublicKey.parse_canonical (s : String) (h : IsCanonicalHex s) :
    PublicKey.parse s = some ⟨s⟩ := by
  obtain ⟨h1, h2⟩ := h
  unfold PublicKey.parse
  rw [if_pos ?_]
  · have hmap : s.data.map lowerHexChar = s.data := by
      calc s.data.map lowerHexChar
          = s.data.map id := List.map_congr_left fun a ha => lowerHexChar_id_of_mem (h2 a ha)
        _ = s.data := List.map_id s.data
    rw [hmap]
  · refine ⟨h1, ?_⟩
    rw [List.all_eq_true]
    intro c hc
    simpa using mem_lowerHex_mem_hex (h2 c hc)

theorem PublicKey.parse_sound (s : String) (pk : PublicKey)
    (h : PublicKey.parse s = some pk) : IsCanonicalHex pk.hex := by
  unfold PublicKey.parse at h
  split at h
  · next hcond =>
    injection h with h
    subst h
    refine ⟨by simpa using hcond.1, ?_⟩
    intro c hc
    obtain ⟨c0, hc0, rfl⟩ := List.mem_map.mp hc
    have := hcond.2
    rw [List.all_eq_true] at this
    exact lowerHexChar_mem_of_mem (by simpa using this c0 hc0)
  · exact absurd h (by simp)

theorem splitOnce_append (c : Char) :
    ∀ (pre rest : List Char), c ∉ pre →
      splitOnce c (pre ++ c :: rest) = some (pre, rest) := by
  intro pre
  induction pre with
  | nil =>
    intro rest _
    simp [splitOnce]
  | cons x xs ih =>
    intro rest h
    have hx : x ≠ c := fun hc => h (hc ▸ List.mem_cons_self x xs)
    have hxs : c ∉ xs := fun hc => h (List.mem_cons_of_mem x hc)
    simp only [List.cons_append, splitOnce, List.append_eq]
    rw [if_neg hx, ih rest hxs]

theorem splitn3_mk (k h d : List Char) (hk : (':' : Char) ∉ k)
    (hh : (':' : Char) ∉ h) :
    splitn3 ⟨k ++ ':' :: (h ++ ':' :: d)⟩ = [⟨k⟩, ⟨h⟩, ⟨d⟩] := by
  have e1 : splitOnce ':' ((⟨k ++ ':' :: (h ++ ':' :: d)⟩ : String).data)
      = some (k, h ++ ':' :: d) := splitOnce_append ':' k _ hk
  have e2 : splitOnce ':' (h ++ ':' :: d) = some (h, d) := splitOnce_append ':' h d hh
  unfold splitn3
  rw [e1]
  simp only [e2]

/-- The canonical coordinate string decomposed as raw character data. -/
theorem coordinate_to_string_data (kind : Nat) (pk : PublicKey) (d : String) :
    coordinate_to_string kind pk d
      = ⟨(toString kind).data ++ ':' :: (pk.hex.data ++ ':' :: d.data)⟩ := by
  apply String.ext
  show (toString kind ++ ":" ++ pk.to_hex ++ ":" ++ d).data = _
  simp only [String.data_append, PublicKey.to_hex]
  simp [List.append_assoc]

/-- C6: resolving a mutable (kind 39998) header that carries its stable
identifier by event identity yields the same canonical reference string
as resolving its textual coordinate directly; both produce
39998:author_hex:identifier. -/
theorem header_reference_round_trip (ev : Event) (d : String)
    (hk : ev.kind = 39998) (hd : header_d_tag ev = some d)
    (hpk : IsCanonicalHex ev.pubkey.hex) :
    resolve_header_event ev
      = resolve_coordinate_ref (coordinate_to_string 39998 ev.pubkey d)
    ∧ resolve_header_event ev
      = .ok ("39998:" ++ ev.pubkey.to_hex ++ ":" ++ d) := by
  have hres : resolve_header_event ev
      = .ok ("39998:" ++ ev.pubkey.to_hex ++ ":" ++ d) := by
    unfold resolve_header_event
    rw [if_pos hk, hd]
  have hnocolon : (':' : Char) ∉ ev.pubkey.hex.data := by
    intro hc
    exact colon_not_mem_of_lowerHex (hpk.2 _ hc) rfl
  have hsplit : splitn3 (coordinate_to_string 39998 ev.pubkey d)
      = ["39998", ev.pubkey.hex, d] := by
    rw [coordinate_to_string_data]
    have h39 : (toString (39998 : Nat)).data = "39998".data := by decide
    rw [h39]
    exact splitn3_mk "39998".data ev.pubkey.hex.data d.data (by decide) hnocolon
  have hu : parseU16 "39998" = some 39998 := by decide
  have hparse : parse_coordinate_str (coordinate_to_string 39998 ev.pubkey d)
      = .ok (39998, ev.pubkey, d) := by
    unfold parse_coordinate_str
    simp only [hsplit, hu, PublicKey.parse_canonical _ hpk]
  refine ⟨?_, hres⟩
  rw [hres]
  unfold resolve_coordinate_ref
  rw [hparse]
  simp [PublicKey.to_hex]

/-- A canonical sample author key: 64 lowercase hex characters. -/
def sampleHex : String := ⟨List.replicate 64 'a'⟩

/-- A mutable sample header carrying its stable identifier. -/
def sampleHeader : Event :=
  ⟨"11", 39998, ⟨sampleHex⟩, 50, [["d", "my-list"]], ""⟩

theorem header_reference_round_trip_witness :
    resolve_header_event sampleHeader
      = resolve_coordinate_ref (coordinate_to_string 39998 sampleHeader.pubkey "my-list")
    ∧ resolve_header_event sampleHeader
      = .ok ("39998:" ++ sampleHeader.pubkey.to_hex ++ ":" ++ "my-list") :=
  header_reference_round_trip sampleHeader "my-list" rfl (by decide)
    ⟨by decide, by decide⟩

/-! Item aggregation filters (src/query.rs lines 423-530) and the tag
construction of add_item (src/item.rs lines 118-140). -/

/-- Model of the nostr subscription filter as used by the item queries:
a kind set, at most one single-letter tag-equality constraint, and a
result cap. -/
structure Filter where
  kinds : List Nat
  tag_key : Option String
  tag_value : Option String
  cap : Option Nat
deriving DecidableEq, Repr

/-- An event carries a tag whose key is key and whose first value is
value (the relay-side semantics of a tag-equality filter). -/
def tag_filter_matches (key value : String) (ev : Event) : Bool :=
  ev.tags.any fun t => t.head? == some key && t.get? 1 == some value

/-- Relay-side matching of a filter against an event: the kind must be
in the kind set and the tag constraint, when present, must match. -/
def filter_matches (f : Filter) (ev : Event) : Bool :=
  f.kinds.contains ev.kind
    && (match f.tag_key, f.tag_value with
      | some k, some v => tag_filter_matches k v ev
      | _, _ => true)

/-- The filter built by fetch_all_items (src/query.rs lines 468-471):
item kinds referencing the header by its event id through the e tag. -/
def fetch_all_items_filter (event_id : String) (limit : Nat) : Filter :=
  ⟨[9999, 39999], some "e", some event_id, some limit⟩

/-- The filter built by fetch_items_by_coordinate (src/query.rs lines
448-451) and by fetch_coordinate_items (lines 509-512): item kinds
referencing the header coordinate through the lowercase a tag. -/
def items_by_coordinate_filter (coord : String) (limit : Nat) : Filter :=
  ⟨[9999, 39999], some "a", some coord, some limit⟩

/-- Embedding of fetch_coordinate_items (src/query.rs lines 497-530):
without the header's d tag, or on a failed fetch, return the accumulated
items unchanged; otherwise merge the coordinate-matched events,
deduplicating by event id against the items already present. -/
def fetch_coordinate_items (store : Filter → Option (List Event))
    (header_event : Event) (limit : Nat) (all_items : List EventJson) :
    List EventJson :=
  match header_d_tag header_event with
  | none => all_items
  | some d =>
    match store (items_by_coordinate_filter
        (coordinate_to_string 39998 header_event.pubkey d) limit) with
    | none => all_items
    | some coord_events =>
      (coord_events.foldl
        (fun acc ev =>
          if acc.2.contains ev.id then acc
          else (acc.1 ++ [event_to_json ev], ev.id :: acc.2))
        (all_items, all_items.map EventJson.event_id)).1

/-- C7 (amended): in header-reference resolution a mutable header
without its d tag fails with the HeaderMissingDTag error, whose code is
distinct from the parse and connectivity codes; the item-aggregation
path fetch_coordinate_items, by contrast, skips the coordinate search
silently and returns the accumulated items unchanged rather than
failing. -/
theorem missing_dtag_distinct_error (ev : Event)
    (hk : ev.kind = 39998) (hd : header_d_tag ev = none) :
    resolve_header_event ev = .error .HeaderMissingDTag
    ∧ (∀ s, AppError.HeaderMissingDTag.code ≠ (AppError.InvalidEventId s).code)
    ∧ (∀ s, AppError.HeaderMissingDTag.code ≠ (AppError.InvalidCoordinate s).code)
    ∧ (∀ s, AppError.HeaderMissingDTag.code ≠ (AppError.RelayUnreachable s).code)
    ∧ (∀ (store : Filter → Option (List Event)) (limit : Nat)
        (items : List EventJson),
        fetch_coordinate_items store ev limit items = items) := by
  refine ⟨?_, ?_, ?_, ?_, ?_⟩
  · unfold resolve_header_event
    rw [if_pos hk, hd]
  · intro s; simp only [AppError.code]; decide
  · intro s; simp only [AppError.code]; decide
  · intro s; simp only [AppError.code]; decide
  · intro store limit items
    unfold fetch_coordinate_items
    rw [hd]

/-- A mutable header whose stable identifier tag is missing. -/
def cexHeaderNoD : Event := ⟨"cc", 39998, ⟨sampleHex⟩, 40, [["title", "welcome"]], ""⟩

/-- An item the store would return for the header's coordinate. -/
def cexCoordItem : Event := ⟨"dd", 9999, ⟨sampleHex⟩, 41, [], ""⟩

theorem missing_dtag_distinct_error_witness :
    resolve_header_event cexHeaderNoD = .error .HeaderMissingDTag :=
  (missing_dtag_distinct_error cexHeaderNoD rfl (by decide)).1

/-- C7 counterexample: a mutable (kind 39998) header lacking its d tag
makes fetch_coordinate_items return successfully with the accumulated
items unchanged — silently skipping the coordinate search even though
the store holds a matching item — rather than failing with the
missing-identifier error as the claim requires of every resolution. -/
theorem fetch_coordinate_items_silent_skip :
    cexHeaderNoD.kind = 39998
    ∧ header_d_tag cexHeaderNoD = none
    ∧ fetch_coordinate_items (fun _ => some [cexCoordItem]) cexHeaderNoD 500 [] = [] := by
  refine ⟨rfl, by decide, ?_⟩
  unfold fetch_coordinate_items
  rw [show header_d_tag cexHeaderNoD = none by decide]

theorem parseU16_lt (s : String) (n : Nat) (h : parseU16 s = some n) : n < 65536 := by
  unfold parseU16 at h
  generalize ht : (match s.data with
    | '+' :: rest => rest
    | l => l) = t at h
  match t with
  | [] => exact absurd h (by simp)
  | c :: cs =>
    rcases hv : digitsVal (c :: cs) 0 with _ | m
    · simp [hv] at h
    · simp only [hv] at h
      split at h
      · next hm =>
        injection h with h
        omega
      · exact absurd h (by simp)

theorem parse_coordinate_ok_iff (input : String) (k : Nat) (pk : PublicKey)
    (d : String) (h : parse_coordinate_str input = .ok (k, pk, d)) :
    ∃ k0 a0, splitn3 input = [k0, a0, d]
      ∧ parseU16 k0 = some k ∧ PublicKey.parse a0 = some pk := by
  unfold parse_coordinate_str at h
  rcases hs : splitn3 input with _ | ⟨k0, _ | ⟨a0, _ | ⟨d0, _ | ⟨e0, rest⟩⟩⟩⟩ <;>
    rw [hs] at h
  · exact absurd h (by simp)
  · exact absurd h (by simp)
  · exact absurd h (by simp)
  · rcases hu : parseU16 k0 with _ | m
    · simp [hu] at h
    · rcases hp : PublicKey.parse a0 with _ | pk0
      · simp [hu, hp] at h
      · simp only [hu, hp] at h
        obtain ⟨rfl, rfl, rfl⟩ := h
        exact ⟨k0, a0, rfl, hu, hp⟩
  · exact absurd h (by simp)

/-- C8: coordinate resolution parses exactly three colon-delimited
segments, requires the kind segment numeric (a u16) and the author
segment a valid public key, and on success the author key is in
normalized (64 lowercase hex) form, so the canonical reference
kind:author_hex:identifier is the normalized string; any shape violation
yields the malformed-coordinate (InvalidCoordinate) error.  The parse is
a pure function of the input, so no network access is involved. -/
theorem coordinate_resolution_shape (input : String) :
    (∀ k pk d, parse_coordinate_str input = .ok (k, pk, d) →
      (∃ k0 a0, splitn3 input = [k0, a0, d]
        ∧ parseU16 k0 = some k ∧ PublicKey.parse a0 = some pk)
      ∧ k < 65536 ∧ IsCanonicalHex pk.hex)
    ∧ ((splitn3 input).length ≠ 3 →
      parse_coordinate_str input = .error (.InvalidCoordinate input))
    ∧ (∀ k0 a0 d0, splitn3 input = [k0, a0, d0] → parseU16 k0 = none →
      parse_coordinate_str input = .error (.InvalidCoordinate input))
    ∧ (∀ k0 a0 d0, splitn3 input = [k0, a0, d0] → PublicKey.parse a0 = none →
      parse_coordinate_str input = .error (.InvalidCoordinate input)) := by
  refine ⟨?_, ?_, ?_, ?_⟩
  · intro k pk d h
    obtain ⟨k0, a0, hs, hu, hp⟩ := parse_coordinate_ok_iff input k pk d h
    exact ⟨⟨k0, a0, hs, hu, hp⟩, parseU16_lt k0 k hu, PublicKey.parse_sound a0 pk hp⟩
  · intro hlen
    unfold parse_coordinate_str
    rcases hs : splitn3 input with _ | ⟨k0, _ | ⟨a0, _ | ⟨d0, _ | ⟨e0, rest⟩⟩⟩⟩
    · rfl
    · rfl
    · rfl
    · rw [hs] at hlen
      simp at hlen
    · rfl
  · intro k0 a0 d0 hs hu
    unfold parse_coordinate_str
    rw [hs]
    simp only [hu]
  · intro k0 a0 d0 hs hp
    unfold parse_coordinate_str
    rw [hs]
    rcases hu : parseU16 k0 with _ | m
    · simp only [hu]
    · simp only [hu, hp]

theorem coordinate_resolution_shape_witness :
    parse_coordinate_str "just-one" = .error (.InvalidCoordinate "just-one") :=
  (coordinate_resolution_shape "just-one").2.1 (by decide)

/-- Model of Rust str::split_once at the equals sign, as used for the
user-supplied key=value fields of add_item. -/
def split_once_eq (f : String) : Option (String × String) :=
  match splitOnce '=' f.data with
  | none => none
  | some (k, v) => some (⟨k⟩, ⟨v⟩)

/-- Embedding of build_item_tags (src/item.rs lines 118-140): the z tag
holding the canonical header reference, the r resource tag, the client
tag, one tag per key=value field, and the optional d identifier tag. -/
def build_item_tags (parent_z_ref resource : String) (fields : List String)
    (d_tag : Option String) : List (List String) :=
  [["z", parent_z_ref], ["r", resource], ["client", "wokhei"]]
    ++ fields.filterMap (fun f => (split_once_eq f).map fun kv => [kv.1, kv.2])
    ++ (match d_tag with
      | some d => [["d", d]]
      | none => [])

theorem splitOnce_eq_some (c : Char) :
    ∀ (l l1 l2 : List Char), splitOnce c l = some (l1, l2) →
      l = l1 ++ c :: l2 ∧ c ∉ l1 := by
  intro l
  induction l with
  | nil => intro l1 l2 h; exact absurd h (by simp [splitOnce])
  | cons x xs ih =>
    intro l1 l2 h
    simp only [splitOnce] at h
    by_cases hx : x = c
    · rw [if_pos hx] at h
      rw [Option.some.injEq, Prod.mk.injEq] at h
      obtain ⟨h1, h2⟩ := h
      subst h1
      subst h2
      subst hx
      exact ⟨rfl, by simp⟩
    · rw [if_neg hx] at h
      rcases hs : splitOnce c xs with _ | ⟨la, lb⟩
      · rw [hs] at h
        exact absurd h (by simp)
      · rw [hs] at h
        rw [Option.some.injEq, Prod.mk.injEq] at h
        obtain ⟨h1, h2⟩ := h
        subst h1
        subst h2
        obtain ⟨ha, hb⟩ := ih la lb hs
        refine ⟨by rw [List.cons_append, ← ha], ?_⟩
        intro hmem
        rcases List.mem_cons.mp hmem with hc | hc
        · exact hx hc.symm
        · exact hb hc

theorem split_once_eq_key (f k v : String) (h : split_once_eq f = some (k, v)) :
    f.data = k.data ++ '=' :: v.data ∧ ('=' : Char) ∉ k.data := by
  unfold split_once_eq at h
  rcases hs : splitOnce '=' f.data with _ | ⟨l1, l2⟩
  · rw [hs] at h
    exact absurd h (by simp)
  · rw [hs] at h
    rw [Option.some.injEq, Prod.mk.injEq] at h
    obtain ⟨h1, h2⟩ := h
    subst h1
    subst h2
    exact splitOnce_eq_some '=' f.data l1 l2 hs

/-- C10: an item built by add_item links to its header solely through
the z tag carrying the canonical header reference — provided no
caller-supplied field is of the form e=... or a=..., no tag with key e
or a is produced — whereas the list_items aggregation filters match only
the e event-reference tag and the lowercase a coordinate tag, so neither
filter matches such an item. -/
theorem item_tags_link_via_z_only (ref resource : String) (fields : List String)
    (d_tag : Option String)
    (hfields : ∀ f ∈ fields, f.data.take 2 ≠ ['e', '='] ∧ f.data.take 2 ≠ ['a', '=']) :
    ["z", ref] ∈ build_item_tags ref resource fields d_tag
    ∧ (∀ t ∈ build_item_tags ref resource fields d_tag,
        t.head? ≠ some "e" ∧ t.head? ≠ some "a")
    ∧ (∀ ev : Event, ev.tags = build_item_tags ref resource fields d_tag →
        tag_filter_matches "z" ref ev = true
        ∧ (∀ v, tag_filter_matches "e" v ev = false)
        ∧ (∀ v, tag_filter_matches "a" v ev = false)
        ∧ (∀ id lim, filter_matches (fetch_all_items_filter id lim) ev = false)
        ∧ (∀ coord lim, filter_matches (items_by_coordinate_filter coord lim) ev = false)) := by
  have hmem : ["z", ref] ∈ build_item_tags ref resource fields d_tag := by
    unfold build_item_tags
    simp
  have hkeys : ∀ t ∈ build_item_tags ref resource fields d_tag,
      t.head? ≠ some "e" ∧ t.head? ≠ some "a" := by
    intro t ht
    unfold build_item_tags at ht
    rw [List.mem_append, List.mem_append] at ht
    rcases ht with (ht | ht) | ht
    · simp only [List.mem_cons, List.not_mem_nil, or_false] at ht
      rcases ht with rfl | rfl | rfl <;> exact ⟨by simp, by simp⟩
    · rw [List.mem_filterMap] at ht
      obtain ⟨f, hf, hmap⟩ := ht
      rcases hsp : split_once_eq f with _ | ⟨k, v⟩
      · rw [hsp] at hmap
        exact absurd hmap (by simp)
      · rw [hsp] at hmap
        simp only [Option.map_some'] at hmap
        injection hmap with heq
        subst heq
        obtain ⟨hfd, _⟩ := split_once_eq_key f k v hsp
        obtain ⟨he, ha⟩ := hfields f hf
        constructor
        · intro hk
          simp only [List.head?_cons, Option.some.injEq] at hk
          subst hk
          apply he
          rw [hfd]
          rfl
        · intro hk
          simp only [List.head?_cons, Option.some.injEq] at hk
          subst hk
          apply ha
          rw [hfd]
          rfl
    · rcases d_tag with _ | d0
      · exact absurd ht (List.not_mem_nil t)
      · rw [List.mem_singleton] at ht
        subst ht
        exact ⟨by simp, by simp⟩
  refine ⟨hmem, hkeys, ?_⟩
  intro ev hev
  have hz : tag_filter_matches "z" ref ev = true := by
    unfold tag_filter_matches
    rw [List.any_eq_true]
    refine ⟨["z", ref], by rw [hev]; exact hmem, by simp⟩
  have he : ∀ v, tag_filter_matches "e" v ev = false := by
    intro v
    unfold tag_filter_matches
    rw [List.any_eq_false]
    intro t ht
    rw [hev] at ht
    intro hc
    rw [Bool.and_eq_true] at hc
    obtain ⟨h1, _⟩ := hc
    rw [beq_iff_eq] at h1
    exact (hkeys t ht).1 h1
  have ha : ∀ v, tag_filter_matches "a" v ev = false := by
    intro v
    unfold tag_filter_matches
    rw [List.any_eq_false]
    intro t ht
    rw [hev] at ht
    intro hc
    rw [Bool.and_eq_true] at hc
    obtain ⟨h1, _⟩ := hc
    rw [beq_iff_eq] at h1
    exact (hkeys t ht).2 h1
  refine ⟨hz, he, ha, ?_, ?_⟩
  · intro id lim
    simp only [filter_matches, fetch_all_items_filter]
    rw [he id]
    exact Bool.and_false _
  · intro coord lim
    simp only [filter_matches, items_by_coordinate_filter]
    rw [ha coord]
    exact Bool.and_false _

theorem item_tags_link_via_z_only_witness :
    ["z", "abc123"] ∈ build_item_tags "abc123" "https://example.com" ["color=red"] none :=
  (item_tags_link_via_z_only "abc123" "https://example.com" ["color=red"] none
    (by decide)).1

end Wokhei
